import Mathlib

/-!
Verification of the `ionworks_schema` configuration-serialization engine.

We give a shallow embedding of the schema classes and their `to_config`
converters (`base.py`, `direct_entries/`, `transforms/`, `stats/`,
`parameter/`, `library/`) and prove the documented serialization contracts.

Python values that can appear in schema fields are modelled by `Val`
(JSON-style values plus embedded schema instances); Python `dict`s are
modelled as insertion-ordered association lists, with `dsetKey` modelling
`d[k] = v` (update in place, else append), `derase` modelling `d.pop(k, None)`
and `dlookup`/`dcontains` modelling indexing and the `in` operator.
Numbers are modelled as exact rationals.
-/

namespace IonworksSchema

mutual

/-- A Python value usable as a schema field or configuration entry:
`None`, `str`, numbers, `bool`, lists/tuples (both serialize as lists),
dicts, or an embedded schema instance. -/
inductive Val where
  | null
  | str (s : String)
  | num (q : Rat)
  | bool (b : Bool)
  | list (xs : List Val)
  | dict (entries : List (String × Val))
  | schema (s : Schema)

/-- The schema instances relevant to the specification's claims, with the
declared fields of each class, in declaration order.

* `directEntry` — `DirectEntry(parameters, source)` (direct_entries.py);
  subclasses (`PiecewiseInterpolation1D/2D`) inherit its `to_config`, which
  reads only `parameters`.
* `pipeline` — `Pipeline(elements, output_file, name, description)` (base.py).
* `parameter` — `Parameter` (parameter.py), fields in declaration order;
  `Val.null` models a field set to `None`.
* `transform` — any `TransformBaseSchema` subclass (transforms.py); `cls` is
  the concrete class name (`"Exp"`, `"Log"`, ...), `parameter` its single field.
* `dist` — any `_DistributionBase` subclass (stats.py); `cls` is the concrete
  class name, `fields` its declared fields in order.
* `distributionWrapper` — the `Distribution` class (stats.py line 40): a plain
  `BaseSchema` with a single field named `distribution`, default `to_config`.
* `prior` — the `Prior` regularizer (objective_functions/regularizers.py
  lines 10-33): fields `name`, `distribution`, `regularizer_weight` in
  declaration order, `_exclude_fields = {"name"}`, default `to_config`.
* `funcSchema` — any `DirectEntryFunctionSchema` subclass (function_schemas.py);
  `functionName` is `__function_name__`, `fields` the declared fields
  (all of which are `str`/`float`-typed in the source). -/
inductive Schema where
  | directEntry (parameters : List (String × Val)) (source : Option String)
  | pipeline (elements : Option (List (String × Val)))
      (output_file nm descr : Option Val)
  | parameter (nm initial_value bounds prior normalize check_bounds
      check_initial_value initial_guess_distribution : Val)
  | transform (cls : String) (parameter : Val)
  | dist (cls : String) (fields : List (String × Val))
  | distributionWrapper (distribution : Val)
  | prior (nm distribution regularizer_weight : Val)
  | funcSchema (functionName : String) (fields : List (String × Val))

end

/-- `d[k] = v` on an insertion-ordered dict: replace the value at the first
occurrence of `k` keeping its position, else append `(k, v)`. -/
def dsetKey (k : String) (v : Val) : List (String × Val) → List (String × Val)
  | [] => [(k, v)]
  | (k1, v1) :: rest =>
      if k1 = k then (k, v) :: rest else (k1, v1) :: dsetKey k v rest

/-- `d.pop(k, None)`: drop the first occurrence of key `k`. -/
def derase (k : String) : List (String × Val) → List (String × Val)
  | [] => []
  | (k1, v1) :: rest => if k1 = k then rest else (k1, v1) :: derase k rest

/-- `d.get(k)`: value at the first occurrence of key `k`. -/
def dlookup (k : String) : List (String × Val) → Option Val
  | [] => none
  | (k1, v1) :: rest => if k1 = k then some v1 else dlookup k rest

/-- `k in d` for dicts. -/
def dcontains (k : String) : List (String × Val) → Bool
  | [] => false
  | (k1, _) :: rest => k1 == k || dcontains k rest

/-- The keys of a dict, in order. -/
def dkeys (c : List (String × Val)) : List String := c.map Prod.fst

/-- `value is None`. -/
def Val.isNull : Val → Bool
  | .null => true
  | _ => false

/-- `value == ""` (true exactly for the empty string). -/
def Val.isEmptyStr : Val → Bool
  | .str "" => true
  | _ => false

/-- `BaseSchema._field_mappings = {"data_input": "data"}` (base.py line 107). -/
def mapFieldName (k : String) : String := if k = "data_input" then "data" else k

/-- The class names exempted from the `"type"` tag in
`BaseSchema.to_config` (base.py lines 126-134). -/
def exemptNames : List String :=
  ["Pipeline", "DataFit", "ArrayDataFit", "Parameter", "DirectEntry",
   "Validation", "Calculation"]

/-- The loop of `DirectEntryFunctionSchema.to_config` (function_schemas.py
lines 20-29): starting from `{"name": name}`, assign every dumped field that
is not `None` (dropped by `model_dump(exclude_none=True)`), not named
`"name"`, and not the empty string.  Field values of the declared function
schemas are primitives, on which `model_dump` is the identity. -/
def funcAssign (acc : List (String × Val)) : List (String × Val) → List (String × Val)
  | [] => acc
  | (k, v) :: rest =>
      if v.isNull then funcAssign acc rest
      else if k = "name" then funcAssign acc rest
      else if v.isEmptyStr then funcAssign acc rest
      else funcAssign (dsetKey k v acc) rest

/-- `_get_element_type` (base.py lines 10-24), restricted to the embedded
universe: `DirectEntry` subclasses and `DirectEntryFunctionSchema` subclasses
classify as `"entry"`; the remaining embedded classes (`Pipeline`,
`Parameter`, transform, distribution and `Distribution` classes) have none of
the `DataFit`/`ArrayDataFit`/`Validation`/`Calculation` markers in name or
ancestry, and raw values are not schema instances, so the classifier returns
`None` for them. -/
def getElementType : Val → Option String
  | .schema (.directEntry _ _) => some "entry"
  | .schema (.funcSchema _ _) => some "entry"
  | _ => none

mutual

/-- `_serialize_value` (base.py lines 62-94) on the embedded value universe:
`None`, primitives pass through; schemas serialize via their `to_config`;
dicts and lists/tuples recurse (tuples already modelled as lists).  The
pybamm-model, dataframe and numpy branches concern values outside this
universe. -/
def serializeValue : Val → Val
  | .null => .null
  | .str s => .str s
  | .num q => .num q
  | .bool b => .bool b
  | .list xs => .list (serializeList xs)
  | .dict es => .dict (serializeEntries es)
  | .schema s => .dict (toConfig s)

def serializeList : List Val → List Val
  | [] => []
  | v :: vs => serializeValue v :: serializeList vs

def serializeEntries : List (String × Val) → List (String × Val)
  | [] => []
  | (k, v) :: es => (k, serializeValue v) :: serializeEntries es

/-- The `to_config` methods of the embedded classes.

* `directEntry`: `DirectEntry.to_config` (direct_entries.py lines 41-46)
  returns exactly `{"element_type": "entry", "values": self.parameters}`
  with `parameters` unserialized.
* `pipeline`: `Pipeline.to_config` (base.py lines 166-195).
* `parameter`: the default `BaseSchema.to_config` loop specialized to
  `Parameter`'s declared fields: `name` is always skipped (it is in
  `_exclude_fields`), every other field is skipped when `None`, otherwise
  assigned through `_serialize_value`; `"Parameter"` is exempt from the
  `"type"` tag.  (`theorem toConfig_parameter_eq_default` below proves this
  agrees with the generic `defaultToConfig`.)
* `transform`: `TransformBaseSchema.to_config` (transforms.py lines 15-26).
* `dist`: `_DistributionBase.to_config` (stats.py lines 13-28).
* `distributionWrapper`: the default `BaseSchema.to_config` specialized to
  `Distribution`'s single field `distribution`; `"Distribution"` is not
  exempt, so the `"type"` tag is set.
* `prior`: the default `BaseSchema.to_config` specialized to `Prior`'s
  declared fields: `name` is always skipped (it is in `_exclude_fields`),
  `distribution` and `regularizer_weight` are skipped when `None`, otherwise
  assigned through `_serialize_value`; `"Prior"` is not exempt, so the
  `"type"` tag is set.  (`theorem toConfig_prior_eq_default` below proves
  this agrees with the generic `defaultToConfig`.)
* `funcSchema`: `DirectEntryFunctionSchema.to_config`. -/
def toConfig : Schema → List (String × Val)
  | .directEntry params _ =>
      [("element_type", Val.str "entry"), ("values", Val.dict params)]
  | .pipeline elements output_file nm descr =>
      let elems := match elements with
        | none => []
        | some es => pipelineElems es
      let c0 := [("elements", Val.dict elems)]
      let c1 := match output_file with
        | none => c0
        | some v => dsetKey "output_file" v c0
      let c2 := match nm with
        | none => c1
        | some v => dsetKey "name" v c1
      match descr with
      | none => c2
      | some v => dsetKey "description" v c2
  | .parameter _ iv b pr nz cb civ igd =>
      let c := if iv.isNull then [] else dsetKey "initial_value" (serializeValue iv) []
      let c := if b.isNull then c else dsetKey "bounds" (serializeValue b) c
      let c := if pr.isNull then c else dsetKey "prior" (serializeValue pr) c
      let c := if nz.isNull then c else dsetKey "normalize" (serializeValue nz) c
      let c := if cb.isNull then c else dsetKey "check_bounds" (serializeValue cb) c
      let c := if civ.isNull then c else
        dsetKey "check_initial_value" (serializeValue civ) c
      if igd.isNull then c else
        dsetKey "initial_guess_distribution" (serializeValue igd) c
  | .transform cls p =>
      dsetKey "transform" (Val.str cls) (derase "parameter" (derase "type" (transformInner p)))
  | .dist cls fields =>
      dsetKey "distribution" (Val.str cls) (distAssign [] fields)
  | .distributionWrapper d =>
      let c := if d.isNull then [] else dsetKey "distribution" (serializeValue d) []
      dsetKey "type" (Val.str "Distribution") c
  | .prior _ d w =>
      let c := if d.isNull then [] else dsetKey "distribution" (serializeValue d) []
      let c := if w.isNull then c else
        dsetKey "regularizer_weight" (serializeValue w) c
      dsetKey "type" (Val.str "Prior") c
  | .funcSchema functionName fields =>
      funcAssign [("name", Val.str functionName)] fields

/-- The inner configuration used by `TransformBaseSchema.to_config`:
`param.to_config()` when the parameter is a schema, a copy of the dict when
it is a dict, `{}` otherwise. -/
def transformInner : Val → List (String × Val)
  | .schema s => toConfig s
  | .dict d => d
  | _ => []

/-- The element loop of `Pipeline.to_config`: serialize each component
(`to_config` for schemas, a copy for raw dicts, `{}` otherwise), then set
`"element_type"` when the classifier returns a tag. -/
def pipelineElems : List (String × Val) → List (String × Val)
  | [] => []
  | (n, comp) :: rest =>
      let elemCfg := match comp with
        | .schema s => toConfig s
        | .dict d => d
        | _ => []
      let elemCfg := match getElementType comp with
        | some t => dsetKey "element_type" (Val.str t) elemCfg
        | none => elemCfg
      (n, Val.dict elemCfg) :: pipelineElems rest

/-- The field loop of `_DistributionBase.to_config` (stats.py lines 17-25):
skip `None` fields; call `to_config` on schema-valued fields; pass everything
else through unchanged (the `tolist` branch concerns numpy arrays, outside
the embedded universe). -/
def distAssign (acc : List (String × Val)) : List (String × Val) → List (String × Val)
  | [] => acc
  | (k, v) :: rest =>
      if v.isNull then distAssign acc rest
      else
        match v with
        | .schema s => distAssign (dsetKey k (Val.dict (toConfig s)) acc) rest
        | w => distAssign (dsetKey k w acc) rest

end

/-- The field loop of the default `BaseSchema.to_config` (base.py lines
113-123): skip `None` fields, skip excluded fields, apply the field-name
mapping and assign the serialized value. -/
def defaultAssign (excl : List String) (acc : List (String × Val)) :
    List (String × Val) → List (String × Val)
  | [] => acc
  | (k, v) :: rest =>
      if v.isNull then defaultAssign excl acc rest
      else if excl.contains k then defaultAssign excl acc rest
      else defaultAssign excl (dsetKey (mapFieldName k) (serializeValue v) acc) rest

/-- The default `BaseSchema.to_config` (base.py lines 111-136) for a class
named `cls` with exclusion set `excl` and fields `fields` in declaration
order: run the field loop, then set `config["type"] = cls` unless `cls` is
one of the exempt container/leaf names. -/
def defaultToConfig (cls : String) (excl : List String)
    (fields : List (String × Val)) : List (String × Val) :=
  let base := defaultAssign excl [] fields
  if cls ∈ exemptNames then base else dsetKey "type" (Val.str cls) base

/-- The `Parameter` constructor (parameter.py lines 52-80): store the fields
and run the `upper_bound_greater_than_lower` model validator, which raises
`ValueError("Bounds must be strictly increasing")` when bounds are given and
`bounds[0] >= bounds[1]`.  Bounds are the documented numeric pair; the tuple
is modelled as `Val.list` (tuples and lists serialize identically). -/
def mkParameter (nm initial_value : Val) (bounds : Option (Rat × Rat))
    (prior normalize check_bounds check_initial_value
     initial_guess_distribution : Val) : Except String Schema :=
  match bounds with
  | some (lo, hi) =>
      if hi ≤ lo then Except.error "Bounds must be strictly increasing"
      else Except.ok (.parameter nm initial_value (Val.list [Val.num lo, Val.num hi])
        prior normalize check_bounds check_initial_value initial_guess_distribution)
  | none => Except.ok (.parameter nm initial_value Val.null
      prior normalize check_bounds check_initial_value initial_guess_distribution)

/-- Calling `to_config` twice in succession on the same instance with no
intervening mutation (`to_config` reads only the instance's fields and copies
before popping, so the second call sees the same state). -/
def convertTwice (s : Schema) : List (String × Val) × List (String × Val) :=
  (toConfig s, toConfig s)

/-- The four discriminator keys of the configuration format. -/
def discKeys : List String := ["type", "element_type", "distribution", "transform"]

/-- How many of the four discriminator keys appear in a document. -/
def discCount (c : List (String × Val)) : Nat :=
  (discKeys.filter (fun k => dcontains k c)).length

/-- No field of the list is named with a discriminator key. -/
def noDiscKey (fields : List (String × Val)) : Bool :=
  fields.all fun kv => !(discKeys.contains kv.1)

mutual

/-- A transform parameter that follows the documented type
(`parameter : Transform or Parameter`): a `Parameter` schema or another
transform whose own parameter does so. -/
def tameTransformParam : Val → Bool
  | .schema s => tameSchemaParam s
  | _ => false

def tameSchemaParam : Schema → Bool
  | .parameter _ _ _ _ _ _ _ _ => true
  | .transform _ q => tameTransformParam q
  | _ => false

end

/-- Instances on which the tag-exclusivity property holds (see the C4
theorems): every transform parameter follows its documented type, no
distribution-subclass or function-schema field is itself named with a
discriminator key, and the instance is not one of the two declared classes
whose own field is named `distribution` — the stats `Distribution` wrapper
and the `Prior` regularizer — with that field set. -/
def tame : Schema → Bool
  | .directEntry _ _ => true
  | .pipeline _ _ _ _ => true
  | .parameter _ _ _ _ _ _ _ _ => true
  | .transform _ p => tameTransformParam p
  | .dist _ fields => noDiscKey fields
  | .distributionWrapper d => d.isNull
  | .prior _ d _ => d.isNull
  | .funcSchema _ fields => noDiscKey fields

mutual

/-- Whether the string `t` occurs anywhere in a value: as a string value, a
dict key, or inside an embedded schema (including its class name). -/
def occursVal (t : String) : Val → Bool
  | .null => false
  | .str s => s == t
  | .num _ => false
  | .bool _ => false
  | .list xs => occursList t xs
  | .dict es => occursEntries t es
  | .schema s => occursSchema t s

def occursList (t : String) : List Val → Bool
  | [] => false
  | v :: vs => occursVal t v || occursList t vs

def occursEntries (t : String) : List (String × Val) → Bool
  | [] => false
  | (k, v) :: es => k == t || occursVal t v || occursEntries t es

def occursSchema (t : String) : Schema → Bool
  | .directEntry params src =>
      occursEntries t params ||
        (match src with | some s => s == t | none => false)
  | .pipeline els o n d =>
      (match els with | some es => occursEntries t es | none => false) ||
        (match o with | some v => occursVal t v | none => false) ||
        (match n with | some v => occursVal t v | none => false) ||
        (match d with | some v => occursVal t v | none => false)
  | .parameter a b c d e f g h =>
      occursVal t a || occursVal t b || occursVal t c || occursVal t d ||
        occursVal t e || occursVal t f || occursVal t g || occursVal t h
  | .transform cls p => cls == t || occursVal t p
  | .dist cls fs => cls == t || occursEntries t fs
  | .distributionWrapper d => occursVal t d
  | .prior a b c => occursVal t a || occursVal t b || occursVal t c
  | .funcSchema f fs => f == t || occursEntries t fs

end

/-- One record of the embedded material library `_MATERIALS`
(library/library.py lines 7-186): the stored `name`, `description` and
`parameter values` literals. -/
structure MaterialData where
  mname : String
  mdescription : String
  parameterValues : List (String × Val)

/-- The `Material` pydantic model (library/library.py lines 189-210). -/
structure Material where
  name : String
  description : Option String
  parameter_values : List (String × Val)

/-- The `_MATERIALS` literal (library/library.py lines 7-186). -/
def materialsLibrary : List (String × MaterialData) :=
  [("Graphite (Coal derived) - Paul 2024",
    { mname := "Graphite (Coal derived) - Paul 2024"
      mdescription := "Thermodynamic parameters for coal-derived graphite from Abigail Paul et al 2024 J. Electrochem. Soc. 171 023501"
      parameterValues :=
        [("Negative electrode host site standard potential [V]",
          Val.list [Val.num 0.3954, Val.num 0.1868, Val.num 0.1191,
            Val.num 0.1172, Val.num 0.0846, Val.num 0.0839]),
         ("Negative electrode host site occupancy fraction",
          Val.list [Val.num 0.1271, Val.num 0.1601, Val.num 0.3016,
            Val.num 0.1612, Val.num 0.2179, Val.num 0.0321]),
         ("Negative electrode host site ideality factor",
          Val.list [Val.num 5.6791, Val.num 1.0823, Val.num 0.7244,
            Val.num 0.1017, Val.num 0.1482, Val.num 0.052])] }),
   ("Graphite (Commercial) - Paul 2024",
    { mname := "Graphite (Commercial) - Paul 2024"
      mdescription := "Thermodynamic parameters for commercial graphite from Abigail Paul et al 2024 J. Electrochem. Soc. 171 023501"
      parameterValues :=
        [("Negative electrode host site standard potential [V]",
          Val.list [Val.num 0.3329, Val.num 0.2098, Val.num 0.1281,
            Val.num 0.1263, Val.num 0.0886, Val.num 0.0888]),
         ("Negative electrode host site occupancy fraction",
          Val.list [Val.num 0.0723, Val.num 0.0846, Val.num 0.3254,
            Val.num 0.159, Val.num 0.26, Val.num 0.0987]),
         ("Negative electrode host site ideality factor",
          Val.list [Val.num 3.9609, Val.num 0.2425, Val.num 0.6571,
            Val.num 0.086, Val.num 0.1598, Val.num 0.0469])] }),
   ("Graphite - Verbrugge 2017",
    { mname := "Graphite - Verbrugge 2017"
      mdescription := "Thermodynamic parameters for LixC6 from Mark Verbrugge et al 2017 J.Electrochem.Soc. 164 E3243"
      parameterValues :=
        [("Negative electrode host site standard potential [V]",
          Val.list [Val.num 0.088, Val.num 0.13, Val.num 0.14,
            Val.num 0.17, Val.num 0.21, Val.num 0.36]),
         ("Negative electrode host site occupancy fraction",
          Val.list [Val.num 0.431294, Val.num 0.240722, Val.num 0.150451,
            Val.num 0.055165, Val.num 0.067202, Val.num 0.055165]),
         ("Negative electrode host site ideality factor",
          Val.list [Val.num 0.086, Val.num 0.08, Val.num 0.72,
            Val.num 2.5, Val.num 0.095, Val.num 6.0])] }),
   ("LFP - Verbrugge 2017",
    { mname := "LFP - Verbrugge 2017"
      mdescription := "Thermodynamic parameters for LixFePO4 from Mark Verbrugge et al 2017 J.Electrochem.Soc. 164 E3243"
      parameterValues :=
        [("Negative electrode host site standard potential [V]",
          Val.list [Val.num 3.42977, Val.num 3.42977]),
         ("Negative electrode host site occupancy fraction",
          Val.list [Val.num 0.82584, Val.num 0.17416]),
         ("Negative electrode host site ideality factor",
          Val.list [Val.num 0.06098, Val.num 0.35868])] }),
   ("Manganese oxide - Verbrugge 2017",
    { mname := "Manganese oxide - Verbrugge 2017"
      mdescription := "Thermodynamic parameters for LixMn2O4 from Mark Verbrugge et al 2017 J.Electrochem.Soc. 164 E3243"
      parameterValues :=
        [("Positive electrode host site standard potential [V]",
          Val.list [Val.num 4.01326, Val.num 4.14834, Val.num 4.1445]),
         ("Positive electrode host site occupancy fraction",
          Val.list [Val.num 0.55286, Val.num 0.39411, Val.num 0.05303]),
         ("Positive electrode host site ideality factor",
          Val.list [Val.num 1.46502, Val.num 1.06156, Val.num 0.39293])] }),
   ("NMC - Verbrugge 2017",
    { mname := "NMC - Verbrugge 2017"
      mdescription := "Thermodynamic parameters for NMC622 from Mark Verbrugge et al 2017 J.Electrochem.Soc. 164 E3243"
      parameterValues :=
        [("Positive electrode host site standard potential [V]",
          Val.list [Val.num 3.6, Val.num 3.7, Val.num 3.9, Val.num 4.2]),
         ("Positive electrode host site occupancy fraction",
          Val.list [Val.num 0.131313, Val.num 0.323232, Val.num 0.212121,
            Val.num 0.333333]),
         ("Positive electrode host site ideality factor",
          Val.list [Val.num 1, Val.num 1.4, Val.num 3.5, Val.num 5.5])] }),
   ("Silicon (delithiation) - Verbrugge 2017",
    { mname := "Silicon (delithiation) - Verbrugge 2017"
      mdescription := "Thermodynamic parameters for Delithiation of LixSi4.4 from Mark Verbrugge et al 2017 J.Electrochem.Soc. 164 E3243"
      parameterValues :=
        [("Negative electrode host site standard potential [V]",
          Val.list [Val.num 0.2807, Val.num 0.47931, Val.num 0.45049,
            Val.num 0.71796]),
         ("Negative electrode host site occupancy fraction",
          Val.list [Val.num 0.286, Val.num 0.059, Val.num 0.452,
            Val.num 0.203]),
         ("Negative electrode host site ideality factor",
          Val.list [Val.num 1.11628, Val.num 0.88258, Val.num 3.07196,
            Val.num 4.27128])] }),
   ("Silicon (lithiation) - Verbrugge 2017",
    { mname := "Silicon (lithiation) - Verbrugge 2017"
      mdescription := "Thermodynamic parameters for Lithiation of LixSi4.4 from Mark Verbrugge et al 2017 J.Electrochem.Soc. 164 E3243"
      parameterValues :=
        [("Negative electrode host site standard potential [V]",
          Val.list [Val.num 0.08216, Val.num 0.2329, Val.num 0.12606,
            Val.num 0.42638]),
         ("Negative electrode host site occupancy fraction",
          Val.list [Val.num 0.21834, Val.num 0.23264, Val.num 0.42492,
            Val.num 0.1241]),
         ("Negative electrode host site ideality factor",
          Val.list [Val.num 0.70934, Val.num 0.9597, Val.num 3.02803,
            Val.num 4.68406])] })]

/-- Dictionary lookup in `_MATERIALS`. -/
def lookupMaterial (n : String) : Option MaterialData :=
  match materialsLibrary.find? (fun kv => kv.1 == n) with
  | none => none
  | some kv => some kv.2

/-- `Material.from_library` (library/library.py lines 212-221): raise
`KeyError(f"Unknown material: {name}")` for an unregistered name, otherwise
build a `Material` from the stored literals (`parameter_values` is a copy of
`data["parameter values"]`).  `Library.get_material` (lines 231-233) calls
this directly. -/
def fromLibrary (n : String) : Except String Material :=
  match lookupMaterial n with
  | none => Except.error ("Unknown material: " ++ n)
  | some d => Except.ok ⟨d.mname, some d.mdescription, d.parameterValues⟩

/-! ### Dictionary lemmas -/

theorem dcontains_iff_mem_dkeys (k : String) (c : List (String × Val)) :
    dcontains k c = true ↔ k ∈ dkeys c := by
  induction c with
  | nil => simp [dcontains, dkeys]
  | cons kv rest ih =>
      obtain ⟨k1, v1⟩ := kv
      simp only [dcontains, dkeys, List.map_cons, List.mem_cons, Bool.or_eq_true,
        beq_iff_eq] at *
      constructor
      · rintro (h | h)
        · exact Or.inl h.symm
        · exact Or.inr (ih.mp h)
      · rintro (h | h)
        · exact Or.inl h.symm
        · exact Or.inr (ih.mpr h)

theorem dcontains_eq_false_iff (k : String) (c : List (String × Val)) :
    dcontains k c = false ↔ k ∉ dkeys c := by
  rw [← dcontains_iff_mem_dkeys]
  cases h : dcontains k c <;> simp [h]

theorem dlookup_eq_none_iff (k : String) (c : List (String × Val)) :
    dlookup k c = none ↔ k ∉ dkeys c := by
  induction c with
  | nil => simp [dlookup, dkeys]
  | cons kv rest ih =>
      obtain ⟨k1, v1⟩ := kv
      by_cases h : k1 = k
      · subst h
        simp [dlookup, dkeys]
      · simp [dlookup, dkeys, h, ih, Ne.symm h]

theorem dkeys_cons (k : String) (v : Val) (c : List (String × Val)) :
    dkeys ((k, v) :: c) = k :: dkeys c := rfl

theorem dkeys_dsetKey (k : String) (v : Val) (c : List (String × Val)) :
    dkeys (dsetKey k v c) = if k ∈ dkeys c then dkeys c else dkeys c ++ [k] := by
  induction c with
  | nil => simp [dsetKey, dkeys]
  | cons kv rest ih =>
      obtain ⟨k1, v1⟩ := kv
      by_cases h : k1 = k
      · subst h
        simp [dsetKey, dkeys_cons]
      · by_cases hm : k ∈ dkeys rest <;>
          simp [dsetKey, h, dkeys_cons, ih, hm, Ne.symm h]

theorem mem_dkeys_dsetKey (a k : String) (v : Val) (c : List (String × Val)) :
    a ∈ dkeys (dsetKey k v c) ↔ a = k ∨ a ∈ dkeys c := by
  rw [dkeys_dsetKey]
  by_cases hm : k ∈ dkeys c
  · simp only [if_pos hm]
    constructor
    · exact fun h => Or.inr h
    · rintro (rfl | h)
      · exact hm
      · exact h
  · simp [if_neg hm, List.mem_append]
    tauto

theorem dsetKey_eq_append (k : String) (v : Val) (c : List (String × Val))
    (h : k ∉ dkeys c) : dsetKey k v c = c ++ [(k, v)] := by
  induction c with
  | nil => simp [dsetKey]
  | cons kv rest ih =>
      obtain ⟨k1, v1⟩ := kv
      simp only [dkeys, List.map_cons, List.mem_cons] at h
      push_neg at h
      simp [dsetKey, Ne.symm h.1, ih h.2]

theorem dsetKey_dsetKey (k : String) (v w : Val) (c : List (String × Val)) :
    dsetKey k v (dsetKey k w c) = dsetKey k v c := by
  induction c with
  | nil => simp [dsetKey]
  | cons kv rest ih =>
      obtain ⟨k1, v1⟩ := kv
      by_cases h : k1 = k
      · subst h
        simp [dsetKey]
      · simp [dsetKey, h, ih]

theorem dlookup_dsetKey_self (k : String) (v : Val) (c : List (String × Val)) :
    dlookup k (dsetKey k v c) = some v := by
  induction c with
  | nil => simp [dsetKey, dlookup]
  | cons kv rest ih =>
      obtain ⟨k1, v1⟩ := kv
      by_cases h : k1 = k
      · subst h
        simp [dsetKey, dlookup]
      · simp [dsetKey, dlookup, h, ih]

theorem dlookup_dsetKey_ne (a k : String) (v : Val) (c : List (String × Val))
    (h : a ≠ k) : dlookup a (dsetKey k v c) = dlookup a c := by
  induction c with
  | nil => simp [dsetKey, dlookup, Ne.symm h]
  | cons kv rest ih =>
      obtain ⟨k1, v1⟩ := kv
      by_cases h1 : k1 = k
      · subst h1
        simp [dsetKey, dlookup, Ne.symm h]
      · by_cases h2 : k1 = a
        · subst h2
          simp [dsetKey, dlookup, h1]
        · simp [dsetKey, dlookup, h1, h2, ih]

theorem dkeys_derase_sublist (k : String) (c : List (String × Val)) :
    (dkeys (derase k c)).Sublist (dkeys c) := by
  induction c with
  | nil => exact List.Sublist.refl _
  | cons kv rest ih =>
      obtain ⟨k1, v1⟩ := kv
      by_cases h : k1 = k
      · subst h
        simp only [derase, if_pos rfl, dkeys_cons]
        exact List.sublist_cons_self _ _
      · simp only [derase, h, if_false, dkeys_cons]
        exact List.Sublist.cons₂ _ ih

theorem mem_dkeys_derase (a k : String) (c : List (String × Val))
    (h : a ∈ dkeys (derase k c)) : a ∈ dkeys c :=
  (dkeys_derase_sublist k c).mem h

theorem nodup_dkeys_derase (k : String) (c : List (String × Val))
    (h : (dkeys c).Nodup) : (dkeys (derase k c)).Nodup :=
  h.sublist (dkeys_derase_sublist k c)

theorem not_mem_dkeys_derase_self (k : String) (c : List (String × Val))
    (h : (dkeys c).Nodup) : k ∉ dkeys (derase k c) := by
  induction c with
  | nil => simp [derase, dkeys]
  | cons kv rest ih =>
      obtain ⟨k1, v1⟩ := kv
      simp only [dkeys, List.map_cons, List.nodup_cons] at h
      by_cases h1 : k1 = k
      · subst h1
        simpa [derase, dkeys] using h.1
      · simp only [derase, h1, if_false, dkeys, List.map_cons, List.mem_cons]
        push_neg
        exact ⟨Ne.symm h1, ih h.2⟩

theorem derase_eq_of_not_mem (k : String) (c : List (String × Val))
    (h : k ∉ dkeys c) : derase k c = c := by
  induction c with
  | nil => simp [derase]
  | cons kv rest ih =>
      obtain ⟨k1, v1⟩ := kv
      simp only [dkeys, List.map_cons, List.mem_cons] at h
      push_neg at h
      simp [derase, Ne.symm h.1, ih h.2]

theorem nodup_dkeys_dsetKey (k : String) (v : Val) (c : List (String × Val))
    (h : (dkeys c).Nodup) : (dkeys (dsetKey k v c)).Nodup := by
  rw [dkeys_dsetKey]
  by_cases hm : k ∈ dkeys c
  · simpa [if_pos hm] using h
  · rw [if_neg hm]
    rw [List.nodup_append]
    refine ⟨h, List.nodup_singleton k, ?_⟩
    intro a ha hk
    rw [List.mem_singleton] at hk
    exact hm (hk ▸ ha)

theorem dkeys_append (a b : List (String × Val)) :
    dkeys (a ++ b) = dkeys a ++ dkeys b := by
  simp [dkeys]

theorem dcontains_dsetKey (a k : String) (v : Val) (c : List (String × Val)) :
    dcontains a (dsetKey k v c) = ((k == a) || dcontains a c) := by
  induction c with
  | nil => simp [dsetKey, dcontains]
  | cons kv rest ih =>
      obtain ⟨k1, v1⟩ := kv
      by_cases h : k1 = k
      · subst h
        simp only [dsetKey, if_pos rfl, dcontains]
        cases hk : k1 == a <;> simp [hk]
      · simp only [dsetKey, h, if_false, dcontains, ih]
        cases hk : k == a <;> cases hk1 : k1 == a <;> simp [hk, hk1]

/-! ### Occurrence lemmas -/

theorem occursEntries_derase (t k : String) (c : List (String × Val))
    (h : occursEntries t (derase k c) = true) : occursEntries t c = true := by
  induction c with
  | nil => simpa [derase] using h
  | cons kv rest ih =>
      obtain ⟨k1, v1⟩ := kv
      by_cases h1 : k1 = k
      · simp only [derase, h1] at h
        simp at h
        simp [occursEntries, h]
      · simp only [derase, h1, if_false, occursEntries, Bool.or_eq_true] at h ⊢
        rcases h with (h | h) | h
        · exact Or.inl (Or.inl h)
        · exact Or.inl (Or.inr h)
        · exact Or.inr (ih h)

theorem occursEntries_dsetKey (t k : String) (v : Val) (c : List (String × Val))
    (h : occursEntries t (dsetKey k v c) = true) :
    k = t ∨ occursVal t v = true ∨ occursEntries t c = true := by
  induction c with
  | nil =>
      simp only [dsetKey, occursEntries, Bool.or_eq_true, beq_iff_eq] at h
      rcases h with (h | h) | h
      · exact Or.inl h
      · exact Or.inr (Or.inl h)
      · exact absurd h (by simp [occursEntries])
  | cons kv rest ih =>
      obtain ⟨k1, v1⟩ := kv
      by_cases h1 : k1 = k
      · subst h1
        simp only [dsetKey, if_pos rfl, occursEntries, Bool.or_eq_true,
          beq_iff_eq] at h
        rcases h with (h | h) | h
        · exact Or.inl h
        · exact Or.inr (Or.inl h)
        · exact Or.inr (Or.inr (by simp [occursEntries, h]))
      · simp only [dsetKey, h1, if_false, occursEntries, Bool.or_eq_true] at h
        rcases h with (h | h) | h
        · exact Or.inr (Or.inr (by simp [occursEntries, h]))
        · exact Or.inr (Or.inr (by simp [occursEntries, h]))
        · rcases ih h with h2 | h2 | h2
          · exact Or.inl h2
          · exact Or.inr (Or.inl h2)
          · exact Or.inr (Or.inr (by simp [occursEntries, h2]))

/-! ### Loop characterizations -/

theorem funcAssign_eq (fields : List (String × Val)) (acc : List (String × Val))
    (hnd : (dkeys fields).Nodup)
    (hdisj : ∀ k, k ∈ dkeys fields → k ≠ "name" → k ∉ dkeys acc) :
    funcAssign acc fields =
      acc ++ fields.filter
        (fun kv => !kv.2.isNull && !(kv.1 == "name") && !kv.2.isEmptyStr) := by
  induction fields generalizing acc with
  | nil => simp [funcAssign]
  | cons kv rest ih =>
      obtain ⟨k, v⟩ := kv
      simp only [dkeys_cons, List.nodup_cons] at hnd
      have hdisj2 : ∀ k2, k2 ∈ dkeys rest → k2 ≠ "name" → k2 ∉ dkeys acc :=
        fun k2 hm hn => hdisj k2 (by simp [dkeys_cons, hm]) hn
      by_cases hv : v.isNull = true
      · rw [show funcAssign acc ((k, v) :: rest) = funcAssign acc rest by
          simp [funcAssign, hv]]
        rw [ih acc hnd.2 hdisj2]
        simp [List.filter_cons, hv]
      · by_cases hk : k = "name"
        · rw [show funcAssign acc ((k, v) :: rest) = funcAssign acc rest by
            simp [funcAssign, hv, hk]]
          rw [ih acc hnd.2 hdisj2]
          simp [List.filter_cons, hk]
        · by_cases hs : v.isEmptyStr = true
          · rw [show funcAssign acc ((k, v) :: rest) = funcAssign acc rest by
              simp [funcAssign, hv, hk, hs]]
            rw [ih acc hnd.2 hdisj2]
            simp [List.filter_cons, hs]
          · have hknot : k ∉ dkeys acc :=
              hdisj k (by simp [dkeys_cons]) hk
            rw [show funcAssign acc ((k, v) :: rest) =
                funcAssign (dsetKey k v acc) rest by
              simp [funcAssign, hv, hk, hs]]
            have hdisj3 : ∀ k2, k2 ∈ dkeys rest → k2 ≠ "name" →
                k2 ∉ dkeys (acc ++ [(k, v)]) := by
              intro k2 hm hn
              rw [dkeys_append]
              simp only [List.mem_append]
              push_neg
              refine ⟨hdisj2 k2 hm hn, ?_⟩
              simp only [dkeys, List.map_cons, List.map_nil, List.mem_singleton]
              intro heq
              exact hnd.1 (heq ▸ hm)
            rw [dsetKey_eq_append k v acc hknot,
              ih (acc ++ [(k, v)]) hnd.2 hdisj3]
            simp [List.filter_cons, hv, hk, hs]

theorem dcontains_defaultAssign (a : String) (excl : List String)
    (acc fs : List (String × Val)) :
    dcontains a (defaultAssign excl acc fs) =
      (dcontains a acc ||
        fs.any (fun kv =>
          !kv.2.isNull && !(excl.contains kv.1) && (mapFieldName kv.1 == a))) := by
  induction fs generalizing acc with
  | nil => simp [defaultAssign]
  | cons kv rest ih =>
      obtain ⟨k, v⟩ := kv
      by_cases hv : v.isNull = true
      · simp [defaultAssign, hv, List.any_cons, ih]
      · by_cases he : k ∈ excl
        · simp [defaultAssign, hv, he, ih, List.any_cons]
        · rw [show defaultAssign excl acc ((k, v) :: rest) =
              defaultAssign excl (dsetKey (mapFieldName k) (serializeValue v) acc) rest by
            simp [defaultAssign, hv, he]]
          rw [ih]
          simp only [dcontains_dsetKey, List.any_cons, hv, he]
          cases hm : (mapFieldName k == a) <;>
            cases hacc : dcontains a acc <;> simp [hm, hacc, hv, he]

theorem mem_dkeys_distAssign (a : String) (acc fs : List (String × Val))
    (h : a ∈ dkeys (distAssign acc fs)) : a ∈ dkeys acc ∨ a ∈ dkeys fs := by
  induction fs generalizing acc with
  | nil => exact Or.inl (by simpa [distAssign] using h)
  | cons kv rest ih =>
      obtain ⟨k, v⟩ := kv
      by_cases hv : v.isNull = true
      · have hnull : v = Val.null := by cases v <;> simp [Val.isNull] at hv ⊢
        subst hnull
        rw [show distAssign acc ((k, Val.null) :: rest) = distAssign acc rest
          from rfl] at h
        rcases ih acc h with h2 | h2
        · exact Or.inl h2
        · exact Or.inr (by simp [dkeys_cons, h2])
      · have step : ∃ w, distAssign acc ((k, v) :: rest) =
            distAssign (dsetKey k w acc) rest := by
          cases v <;> simp [distAssign, Val.isNull] at hv ⊢ <;> exact ⟨_, rfl⟩
        obtain ⟨w, hw⟩ := step
        rw [hw] at h
        rcases ih _ h with h2 | h2
        · rcases (mem_dkeys_dsetKey a k w acc).mp h2 with h3 | h3
          · exact Or.inr (by simp [dkeys_cons, h3])
          · exact Or.inl h3
        · exact Or.inr (by simp [dkeys_cons, h2])

theorem mem_dkeys_funcAssign (a : String) (acc fs : List (String × Val))
    (h : a ∈ dkeys (funcAssign acc fs)) : a ∈ dkeys acc ∨ a ∈ dkeys fs := by
  induction fs generalizing acc with
  | nil => exact Or.inl (by simpa [funcAssign] using h)
  | cons kv rest ih =>
      obtain ⟨k, v⟩ := kv
      by_cases hv : v.isNull
      · rcases ih acc (by simpa [funcAssign, hv] using h) with h2 | h2
        · exact Or.inl h2
        · exact Or.inr (by simp [dkeys_cons, h2])
      · by_cases hk : k = "name"
        · rcases ih acc (by simpa [funcAssign, hv, hk] using h) with h2 | h2
          · exact Or.inl h2
          · exact Or.inr (by simp [dkeys_cons, h2])
        · by_cases hs : v.isEmptyStr
          · rcases ih acc (by simpa [funcAssign, hv, hk, hs] using h) with h2 | h2
            · exact Or.inl h2
            · exact Or.inr (by simp [dkeys_cons, h2])
          · have hh : a ∈ dkeys (funcAssign (dsetKey k v acc) rest) := by
              simpa [funcAssign, hv, hk, hs] using h
            rcases ih _ hh with h2 | h2
            · rcases (mem_dkeys_dsetKey a k v acc).mp h2 with h3 | h3
              · exact Or.inr (by simp [dkeys_cons, h3])
              · exact Or.inl h3
            · exact Or.inr (by simp [dkeys_cons, h2])

theorem mem_dkeys_ite_dsetKey (cond : Bool) (k a : String) (v : Val)
    (c : List (String × Val))
    (h : a ∈ dkeys (if cond then c else dsetKey k v c)) : a = k ∨ a ∈ dkeys c := by
  cases cond
  · rw [if_neg (by simp)] at h
    exact (mem_dkeys_dsetKey a k v c).mp h
  · rw [if_pos rfl] at h
    exact Or.inr h

theorem dkeys_toConfig_parameter (a : String)
    (n iv b pr nz cb civ igd : Val)
    (h : a ∈ dkeys (toConfig (.parameter n iv b pr nz cb civ igd))) :
    a ∈ ["initial_value", "bounds", "prior", "normalize", "check_bounds",
         "check_initial_value", "initial_guess_distribution"] := by
  simp only [toConfig] at h
  rcases mem_dkeys_ite_dsetKey _ _ _ _ _ h with rfl | h
  · simp
  rcases mem_dkeys_ite_dsetKey _ _ _ _ _ h with rfl | h
  · simp
  rcases mem_dkeys_ite_dsetKey _ _ _ _ _ h with rfl | h
  · simp
  rcases mem_dkeys_ite_dsetKey _ _ _ _ _ h with rfl | h
  · simp
  rcases mem_dkeys_ite_dsetKey _ _ _ _ _ h with rfl | h
  · simp
  rcases mem_dkeys_ite_dsetKey _ _ _ _ _ h with rfl | h
  · simp
  rcases mem_dkeys_ite_dsetKey _ _ _ _ _ h with rfl | h
  · simp
  simp [dkeys] at h

theorem discCount_explicit (c : List (String × Val)) :
    discCount c =
      (if dcontains "type" c then 1 else 0) +
      (if dcontains "element_type" c then 1 else 0) +
      (if dcontains "distribution" c then 1 else 0) +
      (if dcontains "transform" c then 1 else 0) := by
  simp only [discCount, discKeys, List.filter_cons, List.filter_nil]
  split_ifs <;> simp

theorem defaultAssign_nil (excl : List String) (acc : List (String × Val)) :
    defaultAssign excl acc [] = acc := rfl

theorem defaultAssign_skip (excl : List String) (k : String) (v : Val)
    (acc rest : List (String × Val)) (hk : excl.contains k = true) :
    defaultAssign excl acc ((k, v) :: rest) = defaultAssign excl acc rest := by
  have hk2 : k ∈ excl := by simpa using hk
  by_cases hv : v.isNull = true <;> simp [defaultAssign, hv, hk2]

theorem defaultAssign_step (excl : List String) (k : String) (v : Val)
    (acc rest : List (String × Val)) (hk : excl.contains k = false) :
    defaultAssign excl acc ((k, v) :: rest) =
      defaultAssign excl
        (if v.isNull then acc
         else dsetKey (mapFieldName k) (serializeValue v) acc) rest := by
  have hk2 : k ∉ excl := by simpa using hk
  by_cases hv : v.isNull = true <;> simp [defaultAssign, hv, hk2]

/-- The inlined `Parameter` arm of `toConfig` is exactly the default
`BaseSchema.to_config` applied to `Parameter`'s class name, exclusion set
`{"name"}` and declared fields in declaration order. -/
theorem toConfig_parameter_eq_default (n iv b pr nz cb civ igd : Val) :
    toConfig (.parameter n iv b pr nz cb civ igd) =
      defaultToConfig "Parameter" ["name"]
        [("name", n), ("initial_value", iv), ("bounds", b), ("prior", pr),
         ("normalize", nz), ("check_bounds", cb), ("check_initial_value", civ),
         ("initial_guess_distribution", igd)] := by
  have hP : "Parameter" ∈ exemptNames := by simp [exemptNames]
  rw [defaultToConfig]
  simp only [if_pos hP]
  rw [defaultAssign_skip _ _ _ _ _ (by decide)]
  rw [defaultAssign_step _ _ _ _ _ (by decide)]
  rw [defaultAssign_step _ _ _ _ _ (by decide)]
  rw [defaultAssign_step _ _ _ _ _ (by decide)]
  rw [defaultAssign_step _ _ _ _ _ (by decide)]
  rw [defaultAssign_step _ _ _ _ _ (by decide)]
  rw [defaultAssign_step _ _ _ _ _ (by decide)]
  rw [defaultAssign_step _ _ _ _ _ (by decide)]
  rw [defaultAssign_nil]
  simp [toConfig, mapFieldName]

/-- The inlined `Distribution`-wrapper arm of `toConfig` is exactly the
default `BaseSchema.to_config` applied to class name `"Distribution"` (not
exempt, so tagged), empty exclusion set and the single declared field
`distribution`. -/
theorem toConfig_wrapper_eq_default (d : Val) :
    toConfig (.distributionWrapper d) =
      defaultToConfig "Distribution" [] [("distribution", d)] := by
  have hD : "Distribution" ∉ exemptNames := by simp [exemptNames]
  rw [defaultToConfig]
  simp only [if_neg hD]
  rw [defaultAssign_step _ _ _ _ _ (by decide)]
  rw [defaultAssign_nil]
  simp [toConfig, mapFieldName]

/-- The inlined `Prior` arm of `toConfig` is exactly the default
`BaseSchema.to_config` applied to class name `"Prior"` (not exempt, so
tagged), exclusion set `{"name"}` and `Prior`'s declared fields in
declaration order. -/
theorem toConfig_prior_eq_default (n d w : Val) :
    toConfig (.prior n d w) =
      defaultToConfig "Prior" ["name"]
        [("name", n), ("distribution", d), ("regularizer_weight", w)] := by
  have hP : "Prior" ∉ exemptNames := by simp [exemptNames]
  rw [defaultToConfig]
  simp only [if_neg hP]
  rw [defaultAssign_skip _ _ _ _ _ (by decide)]
  rw [defaultAssign_step _ _ _ _ _ (by decide)]
  rw [defaultAssign_step _ _ _ _ _ (by decide)]
  rw [defaultAssign_nil]
  simp [toConfig, mapFieldName]

theorem Val.one_le_sizeOf (v : Val) : 1 ≤ sizeOf v := by
  cases v <;> simp_arith

theorem dcontains_derase_false (a k : String) (c : List (String × Val))
    (h : dcontains a c = false) : dcontains a (derase k c) = false := by
  rw [dcontains_eq_false_iff] at h ⊢
  exact fun hm => h (mem_dkeys_derase a k c hm)

theorem noDiscKey_not_mem (fields : List (String × Val)) (a : String)
    (hf : noDiscKey fields = true) (ha : a ∈ discKeys) : a ∉ dkeys fields := by
  intro hm
  simp only [dkeys, List.mem_map] at hm
  obtain ⟨kv, hkv, hfst⟩ := hm
  have h2 := (List.all_eq_true.mp hf) kv hkv
  simp only [Bool.not_eq_true'] at h2
  rw [hfst] at h2
  have h3 : a ∈ discKeys → discKeys.contains a = true := fun hin => by
    simpa using hin
  rw [h3 ha] at h2
  cases h2

theorem dcontains_parameter_disc (a : String) (n iv b pr nz cb civ igd : Val)
    (ha : a ∈ discKeys) :
    dcontains a (toConfig (.parameter n iv b pr nz cb civ igd)) = false := by
  rw [dcontains_eq_false_iff]
  intro hm
  have h7 := dkeys_toConfig_parameter a n iv b pr nz cb civ igd hm
  simp only [discKeys, List.mem_cons, List.not_mem_nil, or_false] at ha
  rcases ha with rfl | rfl | rfl | rfl <;> simp at h7

theorem dsetKey_transform_disc (cls : String) (c : List (String × Val))
    (h1 : dcontains "type" c = false) (h2 : dcontains "element_type" c = false)
    (h3 : dcontains "distribution" c = false) :
    dcontains "type" (dsetKey "transform" (Val.str cls)
      (derase "parameter" (derase "type" c))) = false ∧
    dcontains "element_type" (dsetKey "transform" (Val.str cls)
      (derase "parameter" (derase "type" c))) = false ∧
    dcontains "distribution" (dsetKey "transform" (Val.str cls)
      (derase "parameter" (derase "type" c))) = false ∧
    dcontains "transform" (dsetKey "transform" (Val.str cls)
      (derase "parameter" (derase "type" c))) = true := by
  have e1 := dcontains_derase_false "type" "parameter" _
    (dcontains_derase_false "type" "type" c h1)
  have e2 := dcontains_derase_false "element_type" "parameter" _
    (dcontains_derase_false "element_type" "type" c h2)
  have e3 := dcontains_derase_false "distribution" "parameter" _
    (dcontains_derase_false "distribution" "type" c h3)
  refine ⟨?_, ?_, ?_, ?_⟩ <;> rw [dcontains_dsetKey]
  · simp [e1]
  · simp [e2]
  · simp [e3]
  · simp

theorem transform_disc_aux : ∀ (N : Nat) (p : Val), sizeOf p ≤ N →
    tameTransformParam p = true → ∀ cls : String,
    dcontains "type" (toConfig (.transform cls p)) = false ∧
    dcontains "element_type" (toConfig (.transform cls p)) = false ∧
    dcontains "distribution" (toConfig (.transform cls p)) = false ∧
    dcontains "transform" (toConfig (.transform cls p)) = true := by
  intro N
  induction N with
  | zero =>
      intro p hp
      have := Val.one_le_sizeOf p
      omega
  | succ N ih =>
      intro p hp ht cls
      cases p with
      | schema s =>
          cases s with
          | parameter n iv b pr nz cb civ igd =>
              exact dsetKey_transform_disc cls _
                (dcontains_parameter_disc "type" n iv b pr nz cb civ igd (by decide))
                (dcontains_parameter_disc "element_type" n iv b pr nz cb civ igd
                  (by decide))
                (dcontains_parameter_disc "distribution" n iv b pr nz cb civ igd
                  (by decide))
          | transform cls2 q =>
              have hq : sizeOf q ≤ N := by
                simp_arith at hp
                omega
              obtain ⟨h1, h2, h3, _⟩ := ih q hq ht cls2
              exact dsetKey_transform_disc cls _ h1 h2 h3
          | directEntry a b => simp [tameTransformParam, tameSchemaParam] at ht
          | pipeline a b c d => simp [tameTransformParam, tameSchemaParam] at ht
          | dist a b => simp [tameTransformParam, tameSchemaParam] at ht
          | distributionWrapper a =>
              simp [tameTransformParam, tameSchemaParam] at ht
          | prior a b c => simp [tameTransformParam, tameSchemaParam] at ht
          | funcSchema a b => simp [tameTransformParam, tameSchemaParam] at ht
      | null => simp [tameTransformParam] at ht
      | str a => simp [tameTransformParam] at ht
      | num a => simp [tameTransformParam] at ht
      | bool a => simp [tameTransformParam] at ht
      | list a => simp [tameTransformParam] at ht
      | dict a => simp [tameTransformParam] at ht

/-! ### Claims -/

/-- C1: `DirectEntry.to_config` produces exactly the two keys
`element_type = "entry"` and `values = parameters`, discarding every other
declared field (in particular `source`); consequently a `Pipeline` with the
single element `"e1" = DirectEntry(parameters={"Electrode area [m2]": 0.01})`
serializes to
`{"elements": {"e1": {"element_type": "entry",
"values": {"Electrode area [m2]": 0.01}}}}`. -/
theorem c1_direct_entry_narrowing :
    (∀ (params : List (String × Val)) (source : Option String),
      toConfig (.directEntry params source) =
        [("element_type", Val.str "entry"), ("values", Val.dict params)]) ∧
    toConfig (.pipeline
        (some [("e1", Val.schema
          (.directEntry [("Electrode area [m2]", Val.num 0.01)] none))])
        none none none) =
      [("elements", Val.dict
        [("e1", Val.dict
          [("element_type", Val.str "entry"),
           ("values", Val.dict [("Electrode area [m2]", Val.num 0.01)])])])] :=
  ⟨fun _ _ => rfl, rfl⟩

/-- C2: for every transform schema with a schema-valued `parameter`,
`to_config` equals the inner parameter's own configuration with its `type`
and `parameter` keys removed and a `transform` key mapped to the transform's
class name injected; in particular
`Log(parameter=Parameter(name="y", initial_value=1.0))` converts to the
single flat mapping `{"initial_value": 1.0, "transform": "Log"}` (the
Parameter's fields minus the excluded `name`, plus the `transform` tag). -/
theorem c2_transform_unwraps_inner :
    (∀ (cls : String) (s : Schema),
      toConfig (.transform cls (.schema s)) =
        dsetKey "transform" (Val.str cls)
          (derase "parameter" (derase "type" (toConfig s)))) ∧
    toConfig (.transform "Log" (.schema
        (.parameter (Val.str "y") (Val.num 1) Val.null Val.null Val.null
          Val.null Val.null Val.null))) =
      [("initial_value", Val.num 1), ("transform", Val.str "Log")] :=
  ⟨fun _ _ => rfl, rfl⟩

/-- C3: every function-schema direct entry converts to
`{"name": <registered name>}` followed by exactly the fields that are neither
null nor the empty string, excluding any field named `name`, flat and with no
`type` tag; in particular an `average_ocp` entry with `electrode="positive"`
and `phase=None` serializes to
`{"name": "average_ocp", "electrode": "positive"}` with `phase` absent. -/
theorem c3_function_schema_flat :
    (∀ (fname : String) (fields : List (String × Val)),
      (dkeys fields).Nodup →
      toConfig (.funcSchema fname fields) =
        ("name", Val.str fname) ::
          fields.filter
            (fun kv => !kv.2.isNull && !(kv.1 == "name") && !kv.2.isEmptyStr)) ∧
    (∀ (fname : String) (fields : List (String × Val)),
      "type" ∉ dkeys fields →
      "type" ∉ dkeys (toConfig (.funcSchema fname fields))) ∧
    toConfig (.funcSchema "average_ocp"
        [("electrode", Val.str "positive"), ("phase", Val.null)]) =
      [("name", Val.str "average_ocp"), ("electrode", Val.str "positive")] := by
  refine ⟨?_, ?_, rfl⟩
  · intro fname fields hnd
    rw [show toConfig (.funcSchema fname fields) =
      funcAssign [("name", Val.str fname)] fields from rfl]
    rw [funcAssign_eq fields [("name", Val.str fname)] hnd ?_]
    · rfl
    · intro k _ hk
      simp only [dkeys, List.map_cons, List.map_nil, List.mem_singleton]
      exact hk
  · intro fname fields hty hmem
    rcases mem_dkeys_funcAssign "type" [("name", Val.str fname)] fields hmem
      with h | h
    · simp [dkeys] at h
    · exact hty h

/-- C3 witness: the general statement applied to the `average_ocp` fields. -/
theorem c3_witness :
    toConfig (.funcSchema "average_ocp"
        [("electrode", Val.str "positive"), ("phase", Val.null)]) =
      ("name", Val.str "average_ocp") ::
        [("electrode", Val.str "positive"),
         ("phase", Val.null)].filter
          (fun kv => !kv.2.isNull && !(kv.1 == "name") && !kv.2.isEmptyStr) :=
  c3_function_schema_flat.1 "average_ocp"
    [("electrode", Val.str "positive"), ("phase", Val.null)] (by decide)

/-- C4 counterexample: the claim "at most one of the four discriminator keys
appears in any instance's own document" is false on the code, in two
declared classes that pair a field literally named `distribution` with the
default converter's `type` tag: the stats `Distribution` class (stats.py
line 40), where `Distribution(distribution="Uniform").to_config()` is
`{"distribution": "Uniform", "type": "Distribution"}`, and the `Prior`
regularizer (regularizers.py line 25), where
`Prior(name="x", distribution=Normal(mean=0, std=1)).to_config()` contains
both `"distribution"` and `"type": "Prior"`. -/
theorem c4_counterexample :
    ¬ discCount (toConfig (.distributionWrapper (Val.str "Uniform"))) ≤ 1 ∧
    ¬ discCount (toConfig (.prior (Val.str "x")
        (Val.schema (.dist "Normal"
          [("mean", Val.num 0), ("std", Val.num 1)]))
        Val.null)) ≤ 1 := by
  constructor <;> decide

/-- C4 (amended): at most one of `type`, `element_type`, `distribution`,
`transform` appears in an instance's own document, provided the instance is
`tame`: it is not one of the two declared classes whose own field is named
with a discriminator key — the stats `Distribution` wrapper and the `Prior`
regularizer, both with a `distribution` field — with that field set, its
transform parameters follow their documented `Transform or Parameter` type,
and none of its distribution or function-schema fields is itself named with
a discriminator key. -/
theorem c4_tag_exclusivity_amended :
    ∀ s : Schema, tame s = true → discCount (toConfig s) ≤ 1 := by
  intro s ht
  cases s with
  | directEntry params src =>
      rw [discCount_explicit]
      simp [toConfig, dcontains]
  | pipeline els o n d =>
      rw [discCount_explicit]
      cases els <;> cases o <;> cases n <;> cases d <;>
        simp [toConfig, dcontains, dsetKey]
  | parameter n iv b pr nz cb civ igd =>
      rw [discCount_explicit,
        dcontains_parameter_disc "type" n iv b pr nz cb civ igd (by decide),
        dcontains_parameter_disc "element_type" n iv b pr nz cb civ igd
          (by decide),
        dcontains_parameter_disc "distribution" n iv b pr nz cb civ igd
          (by decide),
        dcontains_parameter_disc "transform" n iv b pr nz cb civ igd
          (by decide)]
      simp
  | transform cls p =>
      obtain ⟨h1, h2, h3, h4⟩ := transform_disc_aux (sizeOf p) p le_rfl ht cls
      rw [discCount_explicit, h1, h2, h3, h4]
      simp
  | dist cls fields =>
      have hne : ∀ a, a ∈ discKeys → dcontains a (distAssign [] fields) = false := by
        intro a ha
        rw [dcontains_eq_false_iff]
        intro hm
        rcases mem_dkeys_distAssign a [] fields hm with h | h
        · simp [dkeys] at h
        · exact noDiscKey_not_mem fields a ht ha h
      rw [show toConfig (.dist cls fields) =
        dsetKey "distribution" (Val.str cls) (distAssign [] fields) from rfl]
      rw [discCount_explicit]
      simp only [dcontains_dsetKey]
      rw [hne "type" (by decide), hne "element_type" (by decide),
        hne "distribution" (by decide), hne "transform" (by decide)]
      simp
  | distributionWrapper d =>
      have hd : d = Val.null := by
        cases d <;> simp [tame, Val.isNull] at ht ⊢
      subst hd
      decide
  | prior n d w =>
      have hd : d = Val.null := by
        cases d <;> simp [tame, Val.isNull] at ht ⊢
      subst hd
      rw [show toConfig (.prior n Val.null w) =
        dsetKey "type" (Val.str "Prior")
          (if w.isNull then [] else
            dsetKey "regularizer_weight" (serializeValue w) []) from rfl]
      cases hw : w.isNull <;>
        simp [hw, discCount_explicit, dcontains, dsetKey]
  | funcSchema fname fields =>
      have hne : ∀ a, a ∈ discKeys →
          dcontains a (funcAssign [("name", Val.str fname)] fields) = false := by
        intro a ha
        rw [dcontains_eq_false_iff]
        intro hm
        rcases mem_dkeys_funcAssign a [("name", Val.str fname)] fields hm
          with h | h
        · have ha2 : a = "name" := by simpa [dkeys] using h
          subst ha2
          simp [discKeys] at ha
        · exact noDiscKey_not_mem fields a ht ha h
      rw [show toConfig (.funcSchema fname fields) =
        funcAssign [("name", Val.str fname)] fields from rfl]
      rw [discCount_explicit]
      rw [hne "type" (by decide), hne "element_type" (by decide),
        hne "distribution" (by decide), hne "transform" (by decide)]
      simp

/-- C4 witness: the amended statement applied to a tame instance, a `Log`
transform of a `Parameter`. -/
theorem c4_witness :
    discCount (toConfig (.transform "Log" (.schema
      (.parameter (Val.str "x") (Val.num 1) Val.null Val.null Val.null
        Val.null Val.null Val.null)))) ≤ 1 :=
  c4_tag_exclusivity_amended _ (by decide)

/-- C5: for the default `BaseSchema.to_config`, the output contains key
`type` exactly when the class name is not one of the fixed exempt family
names, and when present it is set (by `config["type"] = cls_name`, after the
field loop, so it wins over any same-named field) to the instance's own
(most specific) class name — under the hypothesis, true of every declared
exempt family, that an exempt class's fields do not themselves produce a
`type` key. -/
theorem c5_type_tag (cls : String) (excl : List String)
    (fields : List (String × Val))
    (h : cls ∈ exemptNames →
      dcontains "type" (defaultAssign excl [] fields) = false) :
    dlookup "type" (defaultToConfig cls excl fields) =
      if cls ∈ exemptNames then none else some (Val.str cls) := by
  by_cases hex : cls ∈ exemptNames
  · rw [if_pos hex, defaultToConfig]
    simp only [if_pos hex]
    exact (dlookup_eq_none_iff _ _).mpr ((dcontains_eq_false_iff _ _).mp (h hex))
  · rw [if_neg hex, defaultToConfig]
    simp only [if_neg hex]
    exact dlookup_dsetKey_self _ _ _

/-- C5 witness: `Parameter` (exempt, no `type` tag) at concrete fields. -/
theorem c5_witness :
    dlookup "type" (defaultToConfig "Parameter" ["name"]
        [("name", Val.str "x"), ("initial_value", Val.null)]) =
      if "Parameter" ∈ exemptNames then none else some (Val.str "Parameter") :=
  c5_type_tag "Parameter" ["name"]
    [("name", Val.str "x"), ("initial_value", Val.null)] (by decide)

/-- C6: in the default `BaseSchema.to_config`, a field whose value is null
never contributes its output key: if every field mapping to the same output
key is null (field names are unique in pydantic, so this is just the field
itself unless a mapping collides) and that output key is not the `type` tag
of a non-exempt class, the key is absent from the document.  The fixed keys
of specialized converters are emitted regardless: `DirectEntry.to_config`
always contains `element_type = "entry"`, whatever the fields hold. -/
theorem c6_null_omission :
    (∀ (cls : String) (excl : List String) (fields : List (String × Val))
      (k : String),
      (∀ k2 v, (k2, v) ∈ fields → mapFieldName k2 = mapFieldName k →
        v = Val.null) →
      (mapFieldName k ≠ "type" ∨ cls ∈ exemptNames) →
      dlookup (mapFieldName k) (defaultToConfig cls excl fields) = none) ∧
    (∀ (params : List (String × Val)) (source : Option String),
      dlookup "element_type" (toConfig (.directEntry params source)) =
        some (Val.str "entry")) := by
  constructor
  · intro cls excl fields k hcol htype
    have hbase : dcontains (mapFieldName k) (defaultAssign excl [] fields) = false := by
      rw [dcontains_defaultAssign]
      simp only [dcontains, Bool.false_or]
      rw [List.any_eq_false]
      intro kv hkv
      by_cases hmk : mapFieldName kv.1 = mapFieldName k
      · have hv := hcol kv.1 kv.2 hkv hmk
        simp [hv, Val.isNull]
      · simp [hmk]
    rw [dlookup_eq_none_iff]
    intro hmem
    by_cases hex : cls ∈ exemptNames
    · rw [defaultToConfig] at hmem
      simp only [if_pos hex] at hmem
      exact (dcontains_eq_false_iff _ _).mp hbase hmem
    · rw [defaultToConfig] at hmem
      simp only [if_neg hex] at hmem
      rcases (mem_dkeys_dsetKey _ _ _ _).mp hmem with h | h
      · rcases htype with h2 | h2
        · exact h2 h
        · exact hex h2
      · exact (dcontains_eq_false_iff _ _).mp hbase h
  · intro params source
    rfl

/-- C6 witness: a `Parameter`-shaped field list with a null `prior` field
yields no `prior` key. -/
theorem c6_witness :
    dlookup (mapFieldName "prior")
        (defaultToConfig "Parameter" ["name"] [("prior", Val.null)]) = none :=
  c6_null_omission.1 "Parameter" ["name"] [("prior", Val.null)] "prior"
    (by
      intro k2 v hm _
      simp only [List.mem_singleton, Prod.mk.injEq] at hm
      exact hm.2)
    (Or.inl (by decide))

/-- C7: `Parameter(name="x", initial_value=1.0, bounds=(0.0, 2.0))`
constructs successfully and converts to a document with no `name` key,
`initial_value = 1.0` and `bounds = [0.0, 2.0]`; while for every bounds pair
whose lower bound is not strictly below its upper bound, construction raises
`ValueError("Bounds must be strictly increasing")` before any conversion. -/
theorem c7_parameter_bounds :
    (∃ p, mkParameter (Val.str "x") (Val.num 1) (some (0, 2)) Val.null
        Val.null Val.null Val.null Val.null = Except.ok p ∧
      toConfig p =
        [("initial_value", Val.num 1),
         ("bounds", Val.list [Val.num 0, Val.num 2])] ∧
      "name" ∉ dkeys (toConfig p)) ∧
    (∀ (nm iv pr nz cb civ igd : Val) (lo hi : Rat), hi ≤ lo →
      mkParameter nm iv (some (lo, hi)) pr nz cb civ igd =
        Except.error "Bounds must be strictly increasing") := by
  constructor
  · refine ⟨Schema.parameter (Val.str "x") (Val.num 1)
      (Val.list [Val.num 0, Val.num 2]) Val.null Val.null Val.null Val.null
      Val.null, ?_, rfl, by decide⟩
    simp only [mkParameter]
    rw [if_neg (by norm_num)]
  · intro nm iv pr nz cb civ igd lo hi h
    simp only [mkParameter]
    rw [if_pos h]

/-- C7 witness: the error branch at the concrete bounds `(2.0, 0.0)`. -/
theorem c7_witness :
    mkParameter (Val.str "x") (Val.num 1) (some (2, 0)) Val.null Val.null
        Val.null Val.null Val.null =
      Except.error "Bounds must be strictly increasing" :=
  c7_parameter_bounds.2 (Val.str "x") (Val.num 1) Val.null Val.null Val.null
    Val.null Val.null 2 0 (by norm_num)

/-- C8: the material-library lookup raises
`KeyError("Unknown material: <name>")` for every unregistered name — an
error message identifying the requested name, never a default — and for
every registered name returns a `Material` whose `parameter_values` equals
the stored literal data for that name. -/
theorem c8_library_lookup :
    (∀ n, lookupMaterial n = none →
      fromLibrary n = Except.error ("Unknown material: " ++ n)) ∧
    (∀ n d, lookupMaterial n = some d →
      fromLibrary n =
        Except.ok ⟨d.mname, some d.mdescription, d.parameterValues⟩) := by
  constructor
  · intro n h
    simp [fromLibrary, h]
  · intro n d h
    simp [fromLibrary, h]

/-- C8 witness: an unregistered name fails with the identifying message, and
a registered name returns the stored literals. -/
theorem c8_witness :
    fromLibrary "unobtainium" =
      Except.error ("Unknown material: " ++ "unobtainium") ∧
    fromLibrary "LFP - Verbrugge 2017" =
      Except.ok ⟨"LFP - Verbrugge 2017",
        some "Thermodynamic parameters for LixFePO4 from Mark Verbrugge et al 2017 J.Electrochem.Soc. 164 E3243",
        [("Negative electrode host site standard potential [V]",
          Val.list [Val.num 3.42977, Val.num 3.42977]),
         ("Negative electrode host site occupancy fraction",
          Val.list [Val.num 0.82584, Val.num 0.17416]),
         ("Negative electrode host site ideality factor",
          Val.list [Val.num 0.06098, Val.num 0.35868])]⟩ :=
  ⟨c8_library_lookup.1 "unobtainium" rfl,
   c8_library_lookup.2 "LFP - Verbrugge 2017" _ rfl⟩

/-- C9: converting the same Schema Instance twice yields structurally equal
documents: the embedded `to_config` is a pure function of the instance's
fields (the source converters read only instance fields and copy dicts
before mutating them), so both calls of `convertTwice` agree. -/
theorem c9_conversion_deterministic :
    ∀ s : Schema, (convertTwice s).1 = (convertTwice s).2 :=
  fun _ => rfl

/-- C10: for a chain of two transforms, the outer `to_config` equals the
inner transform's `to_config` with the value at the `transform` key replaced
by the outer class name; and (when the class names differ, the inner name is
not the literal key `"transform"`, and the inner name does not already occur
in the wrapped parameter's own configuration) the inner transform's class
name occurs nowhere in the output — the flattened document records only the
outermost transform. -/
theorem c10_chain_flattening (outerName innerName : String) (p : Val)
    (hnd : (dkeys (transformInner p)).Nodup) :
    toConfig (.transform outerName (.schema (.transform innerName p))) =
      dsetKey "transform" (Val.str outerName)
        (toConfig (.transform innerName p)) ∧
    (innerName ≠ outerName → innerName ≠ "transform" →
      occursEntries innerName (transformInner p) = false →
      occursEntries innerName
        (toConfig (.transform outerName (.schema (.transform innerName p)))) =
          false) := by
  have hty : "type" ∉ dkeys (dsetKey "transform" (Val.str innerName)
      (derase "parameter" (derase "type" (transformInner p)))) := by
    intro hm
    rcases (mem_dkeys_dsetKey _ _ _ _).mp hm with h | h
    · exact absurd h (by decide)
    · exact not_mem_dkeys_derase_self "type" (transformInner p) hnd
        (mem_dkeys_derase _ _ _ h)
  have hpar : "parameter" ∉ dkeys (dsetKey "transform" (Val.str innerName)
      (derase "parameter" (derase "type" (transformInner p)))) := by
    intro hm
    rcases (mem_dkeys_dsetKey _ _ _ _).mp hm with h | h
    · exact absurd h (by decide)
    · exact not_mem_dkeys_derase_self "parameter"
        (derase "type" (transformInner p))
        (nodup_dkeys_derase "type" _ hnd) h
  have hmain : toConfig (.transform outerName (.schema (.transform innerName p))) =
      dsetKey "transform" (Val.str outerName)
        (derase "parameter" (derase "type" (transformInner p))) := by
    show dsetKey "transform" (Val.str outerName)
        (derase "parameter" (derase "type" (dsetKey "transform"
          (Val.str innerName)
          (derase "parameter" (derase "type" (transformInner p)))))) = _
    rw [derase_eq_of_not_mem _ _ hty, derase_eq_of_not_mem _ _ hpar,
      dsetKey_dsetKey]
  constructor
  · rw [hmain]
    exact (dsetKey_dsetKey "transform" (Val.str outerName) (Val.str innerName)
      (derase "parameter" (derase "type" (transformInner p)))).symm
  · intro hne hkey hocc
    rw [hmain]
    by_contra hx
    simp only [Bool.not_eq_false] at hx
    rcases occursEntries_dsetKey _ _ _ _ hx with h | h | h
    · exact hkey h.symm
    · have : outerName = innerName := by simpa [occursVal] using h
      exact hne this.symm
    · have h2 := occursEntries_derase _ _ _ (occursEntries_derase _ _ _ h)
      rw [hocc] at h2
      cases h2

/-- C10 witness: the chain `Exp(Log(Parameter("y", 1.0)))` — the outer
config replaces the transform value, and the inner name `"Log"` is absent
from the output. -/
theorem c10_witness :
    toConfig (.transform "Exp" (.schema (.transform "Log" (Val.schema
        (.parameter (Val.str "y") (Val.num 1) Val.null Val.null Val.null
          Val.null Val.null Val.null))))) =
      dsetKey "transform" (Val.str "Exp")
        (toConfig (.transform "Log" (Val.schema
          (.parameter (Val.str "y") (Val.num 1) Val.null Val.null Val.null
            Val.null Val.null Val.null)))) ∧
    occursEntries "Log"
        (toConfig (.transform "Exp" (.schema (.transform "Log" (Val.schema
          (.parameter (Val.str "y") (Val.num 1) Val.null Val.null Val.null
            Val.null Val.null Val.null)))))) = false :=
  ⟨(c10_chain_flattening "Exp" "Log" _ (by decide)).1,
   (c10_chain_flattening "Exp" "Log" _ (by decide)).2 (by decide) (by decide)
     (by decide)⟩

end IonworksSchema
